import Mathlib

/-!
Verification of the NewChat repository core: the knowledge-base keyword
scorer (`searchKnowledgeBase` in the consultant knowledge module) and the
voice-interaction state machine (`useVoiceInput` hook), together with the
Home component stop-handler and the audio-playback completion flow.

String values are modelled as Lean `String` (a packed `List Char`); the
JavaScript string methods used by the source (`toLowerCase`, `split(/\s+/)`,
`includes`, `trim`, `length`) are embedded below for the ASCII range the
application uses.
-/

/-- JS `String.prototype.toLowerCase` (ASCII case mapping, as used by the
source on its ASCII corpus and queries). -/
def jsToLower (s : String) : String :=
  ⟨s.data.map Char.toLower⟩

/-- Split a character list at every whitespace character, keeping empty
pieces (they are discarded downstream by the token-length filter, so the
result agrees with JS `split(/\s+/)` after that filter). -/
def splitOnWs : List Char → List (List Char)
  | [] => [[]]
  | c :: cs =>
    if c.isWhitespace then
      [] :: splitOnWs cs
    else
      match splitOnWs cs with
      | [] => [[c]]
      | t :: ts => (c :: t) :: ts

/-- JS `String.prototype.split(/\s+/)` up to empty pieces (see `splitOnWs`). -/
def jsSplitWs (s : String) : List String :=
  (splitOnWs s.data).map (fun l => ⟨l⟩)

/-- Does the first character list occur at the head of the second? -/
def hasPre : List Char → List Char → Bool
  | [], _ => true
  | _ :: _, [] => false
  | a :: as, b :: bs => a == b && hasPre as bs

/-- Does the first character list occur contiguously inside the second? -/
def subOcc (needle : List Char) : List Char → Bool
  | [] => hasPre needle []
  | b :: bs => hasPre needle (b :: bs) || subOcc needle bs

/-- JS `s.includes(pat)`: `pat` occurs as a contiguous substring of `s`. -/
def jsIncludes (s pat : String) : Bool :=
  subOcc pat.data s.data

/-- JS `String.prototype.trim`: strip whitespace from both ends. -/
def jsTrim (s : String) : String :=
  ⟨((s.data.dropWhile Char.isWhitespace).reverse.dropWhile Char.isWhitespace).reverse⟩

/-! ## Knowledge base model (consultant knowledge module) -/

/-- `KnowledgeEntry` record from the knowledge module. -/
structure KnowledgeEntry where
  id : String
  category : String
  title : String
  content : String
  keywords : List String
  relatedTopics : List String
deriving Repr, DecidableEq

/-- The `{ entry, score }` pairs built inside `searchKnowledgeBase`. -/
structure Scored where
  entry : KnowledgeEntry
  score : Nat
deriving Repr, DecidableEq

/-- Line 250 of the knowledge module:
`query.toLowerCase().split(/\s+/).filter(t => t.length > 2)`. -/
def queryTokens (query : String) : List String :=
  (jsSplitWs (jsToLower query)).filter (fun t => 2 < t.length)

/-- The per-entry score accumulation (lines 253-260): starting from 0, each
query term adds 10 on a title match, 5 on a keyword match, 2 on a content
match (all via lowercased `includes`). -/
def scoreEntry (queryTerms : List String) (e : KnowledgeEntry) : Nat :=
  queryTerms.foldl
    (fun score term =>
      let s1 := if jsIncludes (jsToLower e.title) term then score + 10 else score
      let s2 := if e.keywords.any (fun k => jsIncludes (jsToLower k) term) then s1 + 5 else s1
      if jsIncludes (jsToLower e.content) term then s2 + 2 else s2)
    0

/-- The scored list `knowledgeBase.map(entry => ({ entry, score }))`
(lines 252-263), over an explicit corpus parameter (the source closes over
the fixed `knowledgeBase` constant; the claims quantify over the corpus). -/
def scoredEntries (kb : List KnowledgeEntry) (query : String) : List Scored :=
  kb.map (fun e => ⟨e, scoreEntry (queryTokens query) e⟩)

/-- Stable insertion step: place `x` before the first element whose score is
at most `x.score`. Together with `sortDesc` this realises the (unique)
result of JS `Array.prototype.sort` — stable per ES2019 — under the
comparator `(a, b) => b.score - a.score`. -/
def insertDesc (x : Scored) : List Scored → List Scored
  | [] => [x]
  | y :: ys => if y.score ≤ x.score then x :: y :: ys else y :: insertDesc x ys

/-- Stable descending sort by score; see `insertDesc`. -/
def sortDesc : List Scored → List Scored
  | [] => []
  | x :: xs => insertDesc x (sortDesc xs)

/-- `searchKnowledgeBase` (lines 249-270): score every corpus entry, drop
zero scores, sort stably by descending score, take the first `limit`
(default 3) and return the bare entries. -/
def searchKnowledgeBase (kb : List KnowledgeEntry) (query : String)
    (limit : Nat := 3) : List KnowledgeEntry :=
  ((sortDesc ((scoredEntries kb query).filter (fun it => 0 < it.score))).take limit).map
    Scored.entry

/-- Per-token points for one entry, as the specification states them:
+10 for a title match, +5 for a keyword match, +2 for a content match. -/
def tokenPoints (t : String) (e : KnowledgeEntry) : Nat :=
  (if jsIncludes (jsToLower e.title) t then 10 else 0) +
  (if e.keywords.any (fun k => jsIncludes (jsToLower k) t) then 5 else 0) +
  (if jsIncludes (jsToLower e.content) t then 2 else 0)

/-! ## Voice interaction state machine (`useVoiceInput` hook)

The hook's React state (`isListening`, `transcript`, `error`,
`isWaitingForWakeWord`) and refs (`recognitionRef`,
`accumulatedTranscriptRef`, `silenceTimeoutRef`) are threaded explicitly as
one record. Recognizer instances created by `new SpeechRecognition()` are
identified by fresh numbers; `activeRecs` is the set of instances that have
been started and not stopped (the browser delivers results only for
those). Timers are identified by fresh numbers: `setTimeout` allocates
`nextTimerId`, `clearTimeout` drops the pending id, and a timer callback
can run only while its id is the pending one. -/

/-- One recognition result `event.results[i]`: its transcript text and its
`isFinal` flag. -/
structure Segment where
  text : String
  isFinal : Bool
deriving Repr, DecidableEq

/-- The hook state of `useVoiceInput`. -/
structure VoiceState where
  isListening : Bool
  transcript : String
  error : Option String
  isWaitingForWakeWord : Bool
  recognitionRef : Option Nat
  accumulated : String
  silenceTimer : Option Nat
  activeRecs : List Nat
  nextRecId : Nat
  nextTimerId : Nat
deriving Repr, DecidableEq

/-- `SILENCE_THRESHOLD` constant of the hook (milliseconds). -/
def SILENCE_THRESHOLD : Nat := 2000

/-- `WAKE_WORD` constant of the hook. -/
def WAKE_WORD : String := "xelo"

/-- Hook state right after mounting: all flags false, empty buffers. -/
def initVoice : VoiceState :=
  { isListening := false
    transcript := ""
    error := none
    isWaitingForWakeWord := false
    recognitionRef := none
    accumulated := ""
    silenceTimer := none
    activeRecs := []
    nextRecId := 0
    nextTimerId := 0 }

/-- `stopListening` (lines 24-35): clear the pending silence timer, stop and
drop the recognizer held in the ref, reset the listening flags. -/
def stopListening (s : VoiceState) : VoiceState :=
  let s1 := { s with silenceTimer := none }
  let s2 :=
    match s1.recognitionRef with
    | some r => { s1 with activeRecs := s1.activeRecs.erase r, recognitionRef := none }
    | none => s1
  { s2 with isListening := false, isWaitingForWakeWord := false }

/-- `clearTimeout` of the pending timer followed by
`setTimeout(..., SILENCE_THRESHOLD)`: the pending id is replaced by a fresh
one. -/
def resetSilenceTimer (s : VoiceState) : VoiceState :=
  { s with silenceTimer := some s.nextTimerId, nextTimerId := s.nextTimerId + 1 }

/-- `startListening` (lines 37-142): reset error, accumulator and wake gate;
if the speech API is unavailable record an error; otherwise create a fresh
recognizer, store it in the ref and start it (its `onstart` handler then
sets the listening flags, the placeholder transcript, clears the
accumulator and any pending timer). -/
def startListening (supported : Bool) (s : VoiceState) : VoiceState :=
  let s1 := { s with error := none, accumulated := "", isWaitingForWakeWord := true }
  if supported then
    let rid := s1.nextRecId
    let s2 := { s1 with recognitionRef := some rid
                        activeRecs := s1.activeRecs ++ [rid]
                        nextRecId := rid + 1 }
    { s2 with isListening := true
              isWaitingForWakeWord := true
              transcript := "Listening for \x27xelo\x27..."
              accumulated := ""
              silenceTimer := none }
  else
    { s1 with error := some "Speech recognition is not supported in this browser" }

/-- Loop state of the `for` loop in `recognition.onresult` (lines 69-111):
the `interimTranscript` accumulator, the local `isWaiting` copy of the wake
flag, and the hook state being mutated. -/
structure ResultLoop where
  interim : String
  isWaiting : Bool
  st : VoiceState

/-- One iteration of the `onresult` loop (lines 74-111): lowercase the
result text; a final segment either flips the wake gate (discarding the
accumulator and starting the silence timer) or, past the gate, is appended
to the accumulator with a trailing space and resets the silence timer; an
interim segment past the gate extends the interim display text. -/
def onresultStep (acc : ResultLoop) (seg : Segment) : ResultLoop :=
  let t := jsToLower seg.text
  if seg.isFinal then
    if acc.isWaiting && jsIncludes t WAKE_WORD then
      { acc with
        isWaiting := false
        st := resetSilenceTimer
          { acc.st with isWaitingForWakeWord := false
                        transcript := "Listening..."
                        accumulated := "" } }
    else if !acc.isWaiting then
      { acc with
        st := resetSilenceTimer
          { acc.st with accumulated := acc.st.accumulated ++ t ++ " " } }
    else acc
  else if !acc.isWaiting then
    { acc with interim := acc.interim ++ t }
  else acc

/-- `recognition.onresult` (lines 69-120): process the new results of an
event delivered by a started recognizer `r`, then update the display
transcript (placeholder while waiting, otherwise the trimmed accumulated
plus interim text, or a placeholder when that is empty).

The loop-local `isWaiting` is initialized from the `isWaitingForWakeWord`
binding captured by the enclosing `startListening` closure (line 71).
`startListening` is memoized by `useCallback` with the referentially
stable dependency `[stopListening]`, so that closure is created once, at
the initial render, where the state value is `false`; the later
`setIsWaitingForWakeWord(true)` calls update other renders' bindings, not
this one. The seed is therefore the constant `false`: in the running
program the wake-word branch of the loop is unreachable, and every
finalized segment is accumulated and resets the silence timer. -/
def onresult (r : Nat) (results : List Segment) (s : VoiceState) : VoiceState :=
  if s.activeRecs.contains r then
    let fin := results.foldl onresultStep ⟨"", false, s⟩
    if fin.isWaiting then
      { fin.st with transcript := "Listening for \x27xelo\x27..." }
    else
      let display := jsTrim (fin.st.accumulated ++ fin.interim)
      { fin.st with transcript := if display = "" then "Listening..." else display }
  else s

/-- The silence-timer callback (lines 90-93 and 102-105): when the timer
with id `tid` elapses while still pending, it invokes `stopListening`. -/
def fireSilenceTimer (tid : Nat) (s : VoiceState) : VoiceState :=
  if s.silenceTimer = some tid then stopListening s else s

/-- `recognition.onend` (lines 129-138) for recognizer `r`: reset the
listening flags, publish the trimmed accumulated transcript for submission,
and clear the pending silence timer; the ended instance stops being
active. -/
def onend (r : Nat) (s : VoiceState) : VoiceState :=
  { s with isListening := false
           isWaitingForWakeWord := false
           transcript := jsTrim s.accumulated
           silenceTimer := none
           activeRecs := s.activeRecs.erase r }

/-- `recognition.onerror` (lines 122-127): record the error message and
reset the listening flags. -/
def onerror (msg : String) (s : VoiceState) : VoiceState :=
  { s with error := some ("Speech recognition error: " ++ msg)
           isListening := false
           isWaitingForWakeWord := false }

/-- `resetTranscript` (lines 144-148). -/
def resetTranscript (s : VoiceState) : VoiceState :=
  { s with transcript := "", accumulated := "", isWaitingForWakeWord := false }

/-- The events the hook reacts to. -/
inductive VEvent where
  | start (supported : Bool)
  | stop
  | result (r : Nat) (results : List Segment)
  | timer (tid : Nat)
  | ended (r : Nat)
  | errored (msg : String)
  | reset
deriving Repr, DecidableEq

/-- One event step of the hook. -/
def vstep (s : VoiceState) : VEvent → VoiceState
  | .start supported => startListening supported s
  | .stop => stopListening s
  | .result r results => onresult r results s
  | .timer tid => fireSilenceTimer tid s
  | .ended r => onend r s
  | .errored msg => onerror msg s
  | .reset => resetTranscript s

/-- Run a sequence of events. -/
def runEvents (s : VoiceState) (es : List VEvent) : VoiceState :=
  es.foldl vstep s

/-- Deliver a sequence of single-result events, each carrying one finalized
segment, to recognizer `r`. -/
def deliverFinals (r : Nat) (texts : List String) (s : VoiceState) : VoiceState :=
  texts.foldl (fun st t => onresult r [⟨t, true⟩] st) s

/-- All timer ids the state can mention are at least `n`: the fresh-id
counter is at least `n` and so is any pending timer id. -/
def TimerBound (n : Nat) (s : VoiceState) : Prop :=
  n ≤ s.nextTimerId ∧ ∀ t, s.silenceTimer = some t → n ≤ t

/-- A concrete capturing-phase state: one session started, two finalized
segments accumulated (pending timer id 1, fresh counter 2), then a
recognition error, which resets the waiting and listening flags while
leaving the pending timer and the recognizer in place. -/
def demoCapturing : VoiceState :=
  onerror "no-speech"
    (onresult 0 [⟨"hello there", true⟩]
      (onresult 0 [⟨"hey xelo", true⟩] (startListening true initVoice)))

/-! ## Home component: stop handler and response pipeline (chat-message module) -/

/-- The `ConversationState` enumeration. -/
inductive ConvState where
  | idle
  | listening
  | processing
  | speaking
deriving Repr, DecidableEq

/-- A chat message (id and timestamp of the source record are not
modelled). -/
structure HomeMessage where
  role : String
  content : String
deriving Repr, DecidableEq

/-- The Home component state relevant to the stop handler. -/
structure HomeState where
  messages : List HomeMessage
  conversationState : ConvState
deriving Repr, DecidableEq

/-- `handleStopListening`, voice branch (lines 298-317): after
`stopListening()`, a non-empty trimmed transcript is appended as a user
message, the state moves to `processing` and the trimmed transcript is
handed to `chatMutation.mutate`; an empty one returns the state to `idle`.
The second component is the argument of the chat request, `none` when no
request is made. -/
def handleStopListeningVoice (transcript : String) (st : HomeState) :
    HomeState × Option String :=
  if jsTrim transcript ≠ "" then
    ({ messages := st.messages ++ [⟨"user", jsTrim transcript⟩]
       conversationState := .processing },
     some (jsTrim transcript))
  else
    ({ st with conversationState := .idle }, none)

/-! ## Audio playback completion (use-audio-playback hook and
`chatMutation.onSuccess`)

`playAudio` returns a promise settled by the callbacks it registers:
`audio.onended` resolves, `audio.onerror` rejects, a rejection of
`audio.play()` rejects, and a synchronous exception rejects. A promise
settles at most once: if several callbacks fire, the first one wins. -/

/-- A callback firing of one playback attempt. -/
inductive PlayEvt where
  | ended
  | audioError
  | playRejected
  | threw
deriving Repr, DecidableEq

/-- How a promise settles. -/
inductive Settle where
  | resolved
  | rejected
deriving Repr, DecidableEq

/-- Which settlement a single callback produces (`onended` resolves,
everything else rejects). -/
def settleOf : PlayEvt → Settle
  | .ended => .resolved
  | _ => .rejected

/-- The settlement of the `playAudio` promise given the sequence of
callback firings of the attempt: the first firing settles the promise,
later ones are ignored; with no firing the promise never settles. -/
def promiseSettle (evts : List PlayEvt) : Option Settle :=
  (evts.head?).map settleOf

/-- `playBrowserTTS` (chat-message module, lines 102-130): set the state to
`speaking`, then both `utterance.onend` and `utterance.onerror` set it to
`idle` and resolve, so the assignments are the same either way. -/
def ttsTrace : List ConvState := [.speaking, .idle]

/-- The sequence of `setConversationState` assignments performed by
`chatMutation.onSuccess` (lines 209-236) for one response: with a server
`audioUrl`, set `speaking`, await `playAudio`; on rejection fall back to
browser TTS; the `finally` block sets `idle`. Without an `audioUrl`, run
browser TTS then set `idle`. -/
def onSuccessTrace (hasAudioUrl : Bool) (settle : Settle) : List ConvState :=
  if hasAudioUrl then
    [.speaking] ++ (match settle with | .resolved => [] | .rejected => ttsTrace) ++ [.idle]
  else
    ttsTrace ++ [.idle]

/-- Count the state changes from `a` to `b` along a sequence of state
assignments starting from `cur` (an assignment equal to the current state
is not a change). -/
def countTransitions (a b : ConvState) : ConvState → List ConvState → Nat
  | _, [] => 0
  | cur, x :: xs =>
    (if cur = a ∧ x = b ∧ cur ≠ x then 1 else 0) + countTransitions a b x xs

/-! ## Small concrete corpus used to evaluate the theorems -/

/-- A concrete corpus entry (abridged from the fixed corpus). -/
def demoEntryCloud : KnowledgeEntry :=
  { id := "exp-3"
    category := "expertise"
    title := "Cloud Architecture"
    content := "Expert guidance on cloud infrastructure and migration"
    keywords := ["cloud", "migration"]
    relatedTopics := [] }

/-- A second concrete corpus entry. -/
def demoEntryFaq : KnowledgeEntry :=
  { id := "faq-2"
    category := "faq"
    title := "How do you work with distributed teams"
    content := "Regular sync meetings via video conference"
    keywords := ["remote", "team"]
    relatedTopics := [] }

/-- A two-entry concrete corpus. -/
def demoKb : List KnowledgeEntry := [demoEntryCloud, demoEntryFaq]

/-! ## Theorems: knowledge retrieval scorer -/

theorem scoreEntry_foldl_aux (e : KnowledgeEntry) (terms : List String) (a : Nat) :
    List.foldl
      (fun score term =>
        let s1 := if jsIncludes (jsToLower e.title) term then score + 10 else score
        let s2 := if e.keywords.any (fun k => jsIncludes (jsToLower k) term) then s1 + 5 else s1
        if jsIncludes (jsToLower e.content) term then s2 + 2 else s2)
      a terms
    = a + (terms.map (fun t => tokenPoints t e)).sum := by
  induction terms generalizing a with
  | nil => simp
  | cons t ts ih =>
    simp only [List.foldl_cons, List.map_cons, List.sum_cons, ih, tokenPoints]
    split <;> split <;> split <;> omega

theorem scoreEntry_eq_sum (terms : List String) (e : KnowledgeEntry) :
    scoreEntry terms e = (terms.map (fun t => tokenPoints t e)).sum := by
  have h := scoreEntry_foldl_aux e terms 0
  simpa [scoreEntry] using h

/-- C1: for every query and corpus entry, `searchKnowledgeBase` scores the
entry as the sum, over the surviving query tokens (lowercased query split
on whitespace, tokens shorter than 3 characters discarded), of +10 for a
title substring match, +5 for a keyword substring match and +2 for a
content substring match, so each token contributes at most 17 points. -/
theorem searchKnowledgeBase_score_additive :
    (∀ (kb : List KnowledgeEntry) (query : String),
      scoredEntries kb query
        = kb.map (fun e =>
            ⟨e, ((queryTokens query).map (fun t => tokenPoints t e)).sum⟩)) ∧
    ∀ (t : String) (e : KnowledgeEntry), tokenPoints t e ≤ 17 := by
  constructor
  · intro kb query
    unfold scoredEntries
    simp only [scoreEntry_eq_sum]
  · intro t e
    unfold tokenPoints
    split <;> split <;> split <;> omega

theorem charToNat_inj {a b : Char} (h : a.toNat = b.toNat) : a = b :=
  Char.ext (UInt32.ext h)

theorem char_toNat_ofNat_valid (n : Nat) (h : n.isValidChar) :
    (Char.ofNat n).toNat = n := by
  rw [Char.ofNat, dif_pos h]
  rfl

theorem isWhitespace_iff_toNat (c : Char) :
    c.isWhitespace = true ↔ (c.toNat = 32 ∨ c.toNat = 9 ∨ c.toNat = 13 ∨ c.toNat = 10) := by
  unfold Char.isWhitespace
  simp only [Bool.or_eq_true, decide_eq_true_eq]
  constructor
  · rintro (((h | h) | h) | h) <;> subst h <;> decide
  · rintro (h | h | h | h)
    · exact Or.inl (Or.inl (Or.inl (charToNat_inj (by rw [h]; decide))))
    · exact Or.inl (Or.inl (Or.inr (charToNat_inj (by rw [h]; decide))))
    · exact Or.inl (Or.inr (charToNat_inj (by rw [h]; decide)))
    · exact Or.inr (charToNat_inj (by rw [h]; decide))

theorem isWhitespace_toLower (c : Char) :
    (Char.toLower c).isWhitespace = c.isWhitespace := by
  unfold Char.toLower
  by_cases h : c.toNat ≥ 65 ∧ c.toNat ≤ 90
  · rw [if_pos h]
    have hv : (Char.ofNat (c.toNat + 32)).toNat = c.toNat + 32 :=
      char_toNat_ofNat_valid _ (Or.inl (by omega))
    have h1 : (Char.ofNat (c.toNat + 32)).isWhitespace = false := by
      rw [← Bool.not_eq_true, isWhitespace_iff_toNat, hv]
      push_neg
      omega
    have h2 : c.isWhitespace = false := by
      rw [← Bool.not_eq_true, isWhitespace_iff_toNat]
      push_neg
      omega
    rw [h1, h2]
  · rw [if_neg h]

theorem splitOnWs_ne_nil (l : List Char) : splitOnWs l ≠ [] := by
  cases l with
  | nil => simp [splitOnWs]
  | cons c cs =>
    simp only [splitOnWs]
    split
    · simp
    · split <;> simp

theorem splitOnWs_map_toLower (l : List Char) :
    splitOnWs (l.map Char.toLower) = (splitOnWs l).map (List.map Char.toLower) := by
  induction l with
  | nil => rfl
  | cons c cs ih =>
    simp only [List.map_cons, splitOnWs, isWhitespace_toLower]
    by_cases hw : c.isWhitespace = true
    · simp [hw, ih]
    · rw [if_neg hw, if_neg hw]
      obtain ⟨t, ts, hts⟩ : ∃ t ts, splitOnWs cs = t :: ts := by
        cases h : splitOnWs cs with
        | nil => exact absurd h (splitOnWs_ne_nil cs)
        | cons t ts => exact ⟨t, ts, rfl⟩
      rw [ih, hts]
      rfl

theorem jsSplitWs_toLower (q : String) :
    jsSplitWs (jsToLower q) = (jsSplitWs q).map jsToLower := by
  show (splitOnWs (q.data.map Char.toLower)).map _ = _
  rw [splitOnWs_map_toLower]
  simp only [jsSplitWs, List.map_map]
  rfl

theorem queryTokens_eq_nil (q : String) (h : ∀ t ∈ jsSplitWs q, t.length < 3) :
    queryTokens q = [] := by
  unfold queryTokens
  rw [jsSplitWs_toLower, List.filter_eq_nil_iff]
  intro t ht
  obtain ⟨u, hu, rfl⟩ := List.mem_map.1 ht
  have : (jsToLower u).length = u.length := by
    show (u.data.map Char.toLower).length = u.data.length
    exact List.length_map _ _
  have hu3 := h u hu
  simp only [decide_eq_true_eq]
  omega

/-- C10: a query with no whitespace-delimited token of length at least 3
(in particular the empty and whitespace-only queries) gives every entry
score 0, so `searchKnowledgeBase` returns the empty list for every corpus
and limit. -/
theorem searchKnowledgeBase_no_tokens_empty (kb : List KnowledgeEntry) (q : String)
    (limit : Nat) (h : ∀ t ∈ jsSplitWs q, t.length < 3) :
    searchKnowledgeBase kb q limit = [] := by
  have h0 : queryTokens q = [] := queryTokens_eq_nil q h
  unfold searchKnowledgeBase scoredEntries
  rw [h0]
  have hf : (kb.map (fun e => (⟨e, scoreEntry [] e⟩ : Scored))).filter
      (fun it => 0 < it.score) = [] := by
    rw [List.filter_eq_nil_iff]
    intro x hx
    obtain ⟨e, _, rfl⟩ := List.mem_map.1 hx
    simp [scoreEntry]
  rw [hf]
  simp [sortDesc]

/-- Evaluation of C10 at a concrete corpus, the whitespace-only query
`" a b "` and limit 5. -/
theorem searchKnowledgeBase_no_tokens_empty_witness :
    (∀ t ∈ jsSplitWs " a b ", t.length < 3) ∧
      searchKnowledgeBase demoKb " a b " 5 = [] :=
  ⟨by decide, searchKnowledgeBase_no_tokens_empty demoKb " a b " 5 (by decide)⟩

theorem mem_insertDesc {x a : Scored} {l : List Scored} :
    a ∈ insertDesc x l ↔ a = x ∨ a ∈ l := by
  induction l with
  | nil => simp [insertDesc]
  | cons y ys ih =>
    simp only [insertDesc]
    split
    · simp [List.mem_cons]
    · simp only [List.mem_cons, ih]
      tauto

theorem mem_sortDesc {a : Scored} {l : List Scored} : a ∈ sortDesc l ↔ a ∈ l := by
  induction l with
  | nil => simp [sortDesc]
  | cons x xs ih =>
    simp only [sortDesc, mem_insertDesc, ih, List.mem_cons]

theorem length_insertDesc (x : Scored) (l : List Scored) :
    (insertDesc x l).length = l.length + 1 := by
  induction l with
  | nil => rfl
  | cons y ys ih =>
    simp only [insertDesc]
    split
    · simp
    · simp [ih]

theorem length_sortDesc (l : List Scored) : (sortDesc l).length = l.length := by
  induction l with
  | nil => rfl
  | cons x xs ih => simp [sortDesc, length_insertDesc, ih]

theorem pairwise_insertDesc {x : Scored} {l : List Scored}
    (h : l.Pairwise (fun a b => b.score ≤ a.score)) :
    (insertDesc x l).Pairwise (fun a b => b.score ≤ a.score) := by
  induction l with
  | nil => simp [insertDesc]
  | cons y ys ih =>
    rcases List.pairwise_cons.1 h with ⟨hy, hys⟩
    simp only [insertDesc]
    split
    · rename_i hle
      refine List.pairwise_cons.2 ⟨?_, h⟩
      intro b hb
      rcases List.mem_cons.1 hb with rfl | hb
      · exact hle
      · exact le_trans (hy b hb) hle
    · rename_i hgt
      refine List.pairwise_cons.2 ⟨?_, ih hys⟩
      intro b hb
      rcases mem_insertDesc.1 hb with rfl | hb
      · omega
      · exact hy b hb

theorem pairwise_sortDesc (l : List Scored) :
    (sortDesc l).Pairwise (fun a b => b.score ≤ a.score) := by
  induction l with
  | nil => simp [sortDesc]
  | cons x xs ih =>
    simp only [sortDesc]
    exact pairwise_insertDesc ih

theorem filter_insertDesc (x : Scored) (l : List Scored) (s : Nat) :
    (insertDesc x l).filter (fun a => a.score = s)
      = if x.score = s then x :: l.filter (fun a => a.score = s)
        else l.filter (fun a => a.score = s) := by
  induction l with
  | nil =>
    simp only [insertDesc]
    by_cases hx : x.score = s <;> simp [hx]
  | cons y ys ih =>
    simp only [insertDesc]
    split
    · rename_i hle
      by_cases hx : x.score = s <;> simp [hx, List.filter_cons]
    · rename_i hgt
      by_cases hy : y.score = s
      · by_cases hx : x.score = s
        · exact absurd (by omega) hgt
        · simp [List.filter_cons, hy, hx, ih]
      · by_cases hx : x.score = s <;> simp [List.filter_cons, hy, hx, ih]

theorem filter_sortDesc (l : List Scored) (s : Nat) :
    (sortDesc l).filter (fun a => a.score = s) = l.filter (fun a => a.score = s) := by
  induction l with
  | nil => rfl
  | cons x xs ih =>
    simp only [sortDesc, filter_insertDesc, ih]
    by_cases hx : x.score = s <;> simp [hx, List.filter_cons]

/-- C3: for every query, corpus and limit, `searchKnowledgeBase` returns
only corpus entries with positive score, in non-increasing score order with
equal-score runs kept in corpus order (the returned entries of any fixed
score form an initial fragment of the qualifying entries of that score in
corpus order), with length `min limit (number of positively scored
entries)`; the limit defaults to 3. -/
theorem searchKnowledgeBase_ranking (kb : List KnowledgeEntry) (query : String)
    (limit : Nat) :
    (∀ e ∈ searchKnowledgeBase kb query limit,
        e ∈ kb ∧ 0 < scoreEntry (queryTokens query) e) ∧
    (searchKnowledgeBase kb query limit).Pairwise
      (fun a b => scoreEntry (queryTokens query) b ≤ scoreEntry (queryTokens query) a) ∧
    (∀ s : Nat, ∃ rest,
        (searchKnowledgeBase kb query limit).filter
            (fun e => scoreEntry (queryTokens query) e = s) ++ rest
          = (kb.filter (fun e => 0 < scoreEntry (queryTokens query) e)).filter
              (fun e => scoreEntry (queryTokens query) e = s)) ∧
    (searchKnowledgeBase kb query limit).length
      = min limit (kb.countP (fun e => 0 < scoreEntry (queryTokens query) e)) ∧
    searchKnowledgeBase kb query = searchKnowledgeBase kb query 3 := by
  have coh : ∀ x ∈ scoredEntries kb query,
      x.score = scoreEntry (queryTokens query) x.entry := by
    intro x hx
    obtain ⟨e, _, rfl⟩ := List.mem_map.1 hx
    rfl
  have cohmem : ∀ x ∈ scoredEntries kb query, x.entry ∈ kb := by
    intro x hx
    obtain ⟨e, he, rfl⟩ := List.mem_map.1 hx
    exact he
  have hres : searchKnowledgeBase kb query limit
      = (((sortDesc ((scoredEntries kb query).filter
            (fun it => 0 < it.score))).take limit).map Scored.entry) := rfl
  have hmemfl : ∀ x ∈ (sortDesc ((scoredEntries kb query).filter
      (fun it => 0 < it.score))).take limit,
      x ∈ (scoredEntries kb query).filter (fun it => 0 < it.score) :=
    fun x hx => mem_sortDesc.1 (List.take_subset _ _ hx)
  have hmemsc : ∀ x ∈ (scoredEntries kb query).filter (fun it => 0 < it.score),
      x ∈ scoredEntries kb query := fun x hx => (List.mem_filter.1 hx).1
  have hpos : ∀ x ∈ (scoredEntries kb query).filter (fun it => 0 < it.score),
      0 < x.score := fun x hx => by simpa using (List.mem_filter.1 hx).2
  refine ⟨?_, ?_, ?_, ?_, rfl⟩
  · intro e he
    rw [hres] at he
    obtain ⟨x, hxL, rfl⟩ := List.mem_map.1 he
    have hxfl := hmemfl x hxL
    have hxsc := hmemsc x hxfl
    refine ⟨cohmem x hxsc, ?_⟩
    rw [← coh x hxsc]
    exact hpos x hxfl
  · rw [hres, List.pairwise_map]
    have hLsorted : ((sortDesc ((scoredEntries kb query).filter
        (fun it => 0 < it.score))).take limit).Pairwise
        (fun a b => b.score ≤ a.score) :=
      List.Pairwise.sublist (List.take_sublist _ _) (pairwise_sortDesc _)
    refine List.Pairwise.imp_of_mem ?_ hLsorted
    intro a b ha hb h
    rw [← coh a (hmemsc a (hmemfl a ha)), ← coh b (hmemsc b (hmemfl b hb))]
    exact h
  · intro s
    refine ⟨(((sortDesc ((scoredEntries kb query).filter
        (fun it => 0 < it.score))).drop limit).filter
          (fun x => x.score = s)).map Scored.entry, ?_⟩
    rw [hres, List.filter_map]
    have hcongr : ((sortDesc ((scoredEntries kb query).filter
        (fun it => 0 < it.score))).take limit).filter
          ((fun e => decide (scoreEntry (queryTokens query) e = s)) ∘ Scored.entry)
        = ((sortDesc ((scoredEntries kb query).filter
            (fun it => 0 < it.score))).take limit).filter (fun x => x.score = s) := by
      apply List.filter_congr
      intro x hx
      simp only [Function.comp]
      rw [coh x (hmemsc x (hmemfl x hx))]
    rw [hcongr, ← List.map_append, ← List.filter_append, List.take_append_drop,
      filter_sortDesc, List.filter_filter]
    unfold scoredEntries
    rw [List.filter_map, List.map_map,
      show (Scored.entry ∘ fun e => (⟨e, scoreEntry (queryTokens query) e⟩ : Scored)) = id
        from rfl,
      List.map_id, List.filter_filter]
    rfl
  · rw [hres, List.length_map, List.length_take, length_sortDesc]
    congr 1
    unfold scoredEntries
    rw [← List.countP_eq_length_filter, List.countP_map]
    rfl

/-- Evaluation of C3 at a concrete corpus and query: the FAQ entry scores 0
and is excluded, the cloud entry qualifies and is returned. -/
theorem searchKnowledgeBase_ranking_witness :
    searchKnowledgeBase demoKb "cloud migration" 3 = [demoEntryCloud] ∧
    demoEntryCloud ∈ searchKnowledgeBase demoKb "cloud migration" 3 ∧
    0 < scoreEntry (queryTokens "cloud migration") demoEntryCloud := by
  refine ⟨by decide, by decide, ?_⟩
  exact ((searchKnowledgeBase_ranking demoKb "cloud migration" 3).1
    demoEntryCloud (by decide)).2

/-! ## Theorems: voice interaction state machine -/

theorem onresult_not_active (r : Nat) (segs : List Segment) (s : VoiceState)
    (hr : s.activeRecs.contains r = false) : onresult r segs s = s := by
  have hr2 : r ∉ s.activeRecs := by simpa using hr
  simp [onresult, hr2]

theorem onresult_final_capturing (s : VoiceState) (r : Nat) (t : String)
    (hr : s.activeRecs.contains r = true) :
    (onresult r [⟨t, true⟩] s).accumulated = s.accumulated ++ jsToLower t ++ " " ∧
    (onresult r [⟨t, true⟩] s).silenceTimer = some s.nextTimerId ∧
    (onresult r [⟨t, true⟩] s).nextTimerId = s.nextTimerId + 1 ∧
    (onresult r [⟨t, true⟩] s).isWaitingForWakeWord = s.isWaitingForWakeWord ∧
    (onresult r [⟨t, true⟩] s).activeRecs = s.activeRecs := by
  have hr2 : r ∈ s.activeRecs := by simpa using hr
  simp [onresult, hr2, onresultStep, resetSilenceTimer]

theorem onresultStep_interim (acc : ResultLoop) (seg : Segment)
    (h : seg.isFinal = false) :
    (onresultStep acc seg).st = acc.st ∧ (onresultStep acc seg).isWaiting = acc.isWaiting := by
  simp only [onresultStep, h]
  split
  · rename_i hcontra
    exact absurd hcontra (by simp)
  · split <;> exact ⟨rfl, rfl⟩

theorem foldl_interim (segs : List Segment)
    (h : ∀ seg ∈ segs, seg.isFinal = false) :
    ∀ acc : ResultLoop, (segs.foldl onresultStep acc).st = acc.st ∧
      (segs.foldl onresultStep acc).isWaiting = acc.isWaiting := by
  induction segs with
  | nil => intro acc; exact ⟨rfl, rfl⟩
  | cons seg ss ih =>
    intro acc
    have h1 := onresultStep_interim acc seg (h seg (by simp))
    have h2 := ih (fun sg hsg => h sg (by simp [hsg])) (onresultStep acc seg)
    exact ⟨h2.1.trans h1.1, h2.2.trans h1.2⟩

theorem onresult_interim_only (s : VoiceState) (r : Nat) (segs : List Segment)
    (h : ∀ seg ∈ segs, seg.isFinal = false) :
    (onresult r segs s).silenceTimer = s.silenceTimer ∧
    (onresult r segs s).nextTimerId = s.nextTimerId ∧
    (onresult r segs s).accumulated = s.accumulated ∧
    (onresult r segs s).isWaitingForWakeWord = s.isWaitingForWakeWord ∧
    (onresult r segs s).activeRecs = s.activeRecs := by
  by_cases hr : r ∈ s.activeRecs
  · have hst := foldl_interim segs h ⟨"", false, s⟩
    simp only [onresult]
    rw [if_pos (by simpa using hr)]
    split <;> simp [hst.1]
  · simp [onresult, hr]

theorem deliverFinals_all_accumulate (r : Nat) (texts : List String) :
    ∀ s : VoiceState, r ∈ s.activeRecs →
      (deliverFinals r texts s).accumulated
        = texts.foldl (fun a t => a ++ jsToLower t ++ " ") s.accumulated ∧
      (deliverFinals r texts s).isWaitingForWakeWord = s.isWaitingForWakeWord ∧
      (deliverFinals r texts s).activeRecs = s.activeRecs ∧
      (s.silenceTimer.isSome = true →
        (deliverFinals r texts s).silenceTimer.isSome = true) ∧
      (texts ≠ [] → (deliverFinals r texts s).silenceTimer.isSome = true) := by
  induction texts with
  | nil => intro s _; exact ⟨rfl, rfl, rfl, fun h => h, fun h => absurd rfl h⟩
  | cons t ts ih =>
    intro s h1
    obtain ⟨ha, hti, _, hw2, har⟩ := onresult_final_capturing s r t (by simpa using h1)
    have hstep : deliverFinals r (t :: ts) s
        = deliverFinals r ts (onresult r [⟨t, true⟩] s) := rfl
    have hmem : r ∈ (onresult r [⟨t, true⟩] s).activeRecs := by rw [har]; exact h1
    obtain ⟨A, B, C, D, _⟩ := ih _ hmem
    rw [hstep]
    refine ⟨?_, ?_, ?_, ?_, ?_⟩
    · rw [A, ha]
      rfl
    · rw [B, hw2]
    · rw [C, har]
    · intro _
      exact D (by simp [hti])
    · intro _
      exact D (by simp [hti])

/-- C2: the claimed wake-word gating does not hold of the program. The
`onresult` handler reads the wake flag through the closure created with the
memoized `startListening`, which captured the initial `false`, so the
wake-word branch never runs: for every delivered sequence of finalized
segments, each segment — wake word or not — is accumulated (lowercased,
with a trailing separator) and the silence timer is started, and the
wake-word state flag is never flipped by a result event. In particular,
from a freshly started session nominally awaiting the wake word, the
non-wake segment "hello" is accumulated and timer id 0 is started, and a
wake-word segment is itself accumulated rather than discarded. -/
theorem voice_wake_gate_never_engages :
    (∀ (s : VoiceState) (r : Nat) (texts : List String), r ∈ s.activeRecs →
      (deliverFinals r texts s).accumulated
        = texts.foldl (fun a t => a ++ jsToLower t ++ " ") s.accumulated ∧
      (deliverFinals r texts s).isWaitingForWakeWord = s.isWaitingForWakeWord ∧
      (texts ≠ [] → (deliverFinals r texts s).silenceTimer.isSome = true)) ∧
    (startListening true initVoice).isWaitingForWakeWord = true ∧
    (deliverFinals 0 ["hello"] (startListening true initVoice)).accumulated
      = "hello " ∧
    (deliverFinals 0 ["hello"] (startListening true initVoice)).silenceTimer
      = some 0 ∧
    (deliverFinals 0 ["hey xelo", "turn on lights"]
        (startListening true initVoice)).accumulated
      = "hey xelo turn on lights " := by
  refine ⟨?_, by decide, by decide, by decide, by decide⟩
  intro s r texts hr
  obtain ⟨A, B, _, _, E⟩ := deliverFinals_all_accumulate r texts s hr
  exact ⟨A, B, E⟩

/-- Evaluation of the C2 divergence theorem at a concrete session and
segment list. -/
theorem voice_wake_gate_never_engages_witness :
    (0 ∈ (startListening true initVoice).activeRecs) ∧
    (["hello", "hey xelo"] ≠ ([] : List String)) ∧
    (deliverFinals 0 ["hello", "hey xelo"] (startListening true initVoice)).accumulated
      = ["hello", "hey xelo"].foldl (fun a t => a ++ jsToLower t ++ " ")
          (startListening true initVoice).accumulated ∧
    (deliverFinals 0 ["hello", "hey xelo"]
        (startListening true initVoice)).isWaitingForWakeWord
      = (startListening true initVoice).isWaitingForWakeWord ∧
    (deliverFinals 0 ["hello", "hey xelo"]
        (startListening true initVoice)).silenceTimer.isSome = true := by
  have h := voice_wake_gate_never_engages.1 (startListening true initVoice) 0
    ["hello", "hey xelo"] (by decide)
  exact ⟨by decide, by decide, h.1, h.2.1, h.2.2 (by decide)⟩

/-- C4: in a capturing session with pending silence timer, the timer
callback (which fires only after `SILENCE_THRESHOLD` = 2000 ms without a
further reset) invokes `stopListening`: the timer is cleared and the
recognizer torn down; the recognizer's `onend` then publishes the trimmed
accumulated transcript as the session output. -/
theorem voice_silence_timeout_finalizes (s : VoiceState) (tid r : Nat)
    (hcap : s.isWaitingForWakeWord = false)
    (htimer : s.silenceTimer = some tid)
    (href : s.recognitionRef = some r) :
    SILENCE_THRESHOLD = 2000 ∧
    (fireSilenceTimer tid s).silenceTimer = none ∧
    (fireSilenceTimer tid s).recognitionRef = none ∧
    (fireSilenceTimer tid s).isListening = false ∧
    (onend r (fireSilenceTimer tid s)).transcript = jsTrim s.accumulated ∧
    (onend r (fireSilenceTimer tid s)).silenceTimer = none := by
  have hfire : fireSilenceTimer tid s = stopListening s := by
    simp [fireSilenceTimer, htimer]
  rw [hfire]
  refine ⟨rfl, ?_, ?_, ?_, ?_, ?_⟩ <;> simp [stopListening, onend, href]

/-- Evaluation of C4 at the concrete capturing state: firing the pending
timer and letting the recognizer end publishes `"hello there"`. -/
theorem voice_silence_timeout_finalizes_witness :
    demoCapturing.isWaitingForWakeWord = false ∧
    demoCapturing.silenceTimer = some 1 ∧
    demoCapturing.recognitionRef = some 0 ∧
    (onend 0 (fireSilenceTimer 1 demoCapturing)).transcript
      = jsTrim demoCapturing.accumulated ∧
    jsTrim demoCapturing.accumulated = "hey xelo hello there" ∧
    (fireSilenceTimer 1 demoCapturing).silenceTimer = none ∧
    (fireSilenceTimer 1 demoCapturing).recognitionRef = none := by
  have h := voice_silence_timeout_finalizes demoCapturing 1 0
    (by decide) (by decide) (by decide)
  exact ⟨by decide, by decide, by decide, h.2.2.2.2.1, by decide, h.2.1, h.2.2.1⟩

/-- C5 counterexample: `startListening` has no guard against an active
session; two immediate start invocations leave two recognizer instances
started and active, not exactly one. -/
theorem voice_start_not_idempotent_cex :
    (startListening true (startListening true initVoice)).activeRecs = [0, 1] ∧
    ¬((startListening true (startListening true initVoice)).activeRecs.length = 1) := by
  decide

/-- C5 amended: invoking `startListening` while a session is active is not
a no-op: it creates and starts a fresh recognizer without stopping the
previous one (the ref keeps only the new instance), so after two start
invocations two instances are active, and a finalized segment delivered by
both instances is appended to the accumulator twice. -/
theorem voice_start_second_instance :
    (∀ s : VoiceState,
      (startListening true s).activeRecs = s.activeRecs ++ [s.nextRecId] ∧
      (startListening true s).recognitionRef = some s.nextRecId ∧
      (startListening true s).nextRecId = s.nextRecId + 1) ∧
    (startListening true (startListening true initVoice)).activeRecs = [0, 1] ∧
    (onresult 1 [⟨"hello", true⟩] (onresult 0 [⟨"hello", true⟩]
      (startListening true (startListening true initVoice)))).accumulated
      = "hello hello " := by
  refine ⟨?_, by decide, by decide⟩
  intro s
  exact ⟨rfl, rfl, rfl⟩

/-- C6 counterexample: while capturing at `demoCapturing` (pending timer
id 1, timer counter 2), an event carrying only an interim result leaves the
pending timer and the timer counter unchanged — the interim event does not
reset the silence timer. -/
theorem voice_interim_no_reset_cex :
    demoCapturing.isWaitingForWakeWord = false ∧
    demoCapturing.silenceTimer = some 1 ∧
    demoCapturing.nextTimerId = 2 ∧
    (onresult 0 [⟨"um", false⟩] demoCapturing).silenceTimer = some 1 ∧
    (onresult 0 [⟨"um", false⟩] demoCapturing).nextTimerId = 2 := by
  decide

/-- C6 amended: while capturing, only finalized segments reset the silence
timer (a fresh timer replaces the pending one); a recognition event
consisting only of interim results leaves the pending timer untouched. -/
theorem voice_timer_reset_final_only (s : VoiceState) (r : Nat)
    (segs : List Segment) (t : String) :
    ((∀ seg ∈ segs, seg.isFinal = false) →
      (onresult r segs s).silenceTimer = s.silenceTimer ∧
      (onresult r segs s).nextTimerId = s.nextTimerId) ∧
    (r ∈ s.activeRecs → s.isWaitingForWakeWord = false →
      (onresult r [⟨t, true⟩] s).silenceTimer = some s.nextTimerId ∧
      (onresult r [⟨t, true⟩] s).nextTimerId = s.nextTimerId + 1) := by
  constructor
  · intro h
    obtain ⟨a, b, _⟩ := onresult_interim_only s r segs h
    exact ⟨a, b⟩
  · intro hr hw
    obtain ⟨_, b, c, _⟩ := onresult_final_capturing s r t (by simpa using hr)
    exact ⟨b, c⟩

/-- Evaluation of the amended C6 at the concrete capturing state. -/
theorem voice_timer_reset_final_only_witness :
    (onresult 0 [⟨"um", false⟩] demoCapturing).silenceTimer
      = demoCapturing.silenceTimer ∧
    (onresult 0 [⟨"more text", true⟩] demoCapturing).silenceTimer
      = some demoCapturing.nextTimerId ∧
    (onresult 0 [⟨"more text", true⟩] demoCapturing).nextTimerId
      = demoCapturing.nextTimerId + 1 := by
  have h := voice_timer_reset_final_only demoCapturing 0 [⟨"um", false⟩] "more text"
  exact ⟨(h.1 (by decide)).1, (h.2 (by decide) (by decide)).1,
    (h.2 (by decide) (by decide)).2⟩

theorem onresultStep_timerBound (n : Nat) (acc : ResultLoop) (seg : Segment)
    (h : TimerBound n acc.st) : TimerBound n (onresultStep acc seg).st := by
  obtain ⟨h1, h2⟩ := h
  by_cases hf : seg.isFinal = true
  · by_cases hwk : (acc.isWaiting && jsIncludes (jsToLower seg.text) WAKE_WORD) = true
    · refine ⟨?_, ?_⟩
      · simp [onresultStep, hf, hwk, resetSilenceTimer]
        omega
      · intro t ht
        simp [onresultStep, hf, hwk, resetSilenceTimer] at ht
        omega
    · by_cases hnw : (!acc.isWaiting) = true
      · refine ⟨?_, ?_⟩
        · simp [onresultStep, hf, hwk, hnw, resetSilenceTimer]
          omega
        · intro t ht
          simp [onresultStep, hf, hwk, hnw, resetSilenceTimer] at ht
          omega
      · have hid : onresultStep acc seg = acc := by
          simp [onresultStep, hf, hwk, hnw]
        rw [hid]
        exact ⟨h1, h2⟩
  · have hf2 : seg.isFinal = false := by simpa using hf
    rw [(onresultStep_interim acc seg hf2).1]
    exact ⟨h1, h2⟩

theorem foldl_timerBound (n : Nat) (results : List Segment) :
    ∀ acc : ResultLoop, TimerBound n acc.st
      → TimerBound n (results.foldl onresultStep acc).st := by
  induction results with
  | nil => intro acc h; exact h
  | cons seg ss ih => intro acc h; exact ih _ (onresultStep_timerBound n acc seg h)

theorem stopListening_timerBound (n : Nat) (s : VoiceState) (h1 : n ≤ s.nextTimerId) :
    TimerBound n (stopListening s) := by
  cases href : s.recognitionRef <;>
    · constructor
      · simpa [stopListening, href] using h1
      · intro t ht
        simp [stopListening, href] at ht

theorem vstep_timerBound (n : Nat) (s : VoiceState) (e : VEvent)
    (h : TimerBound n s) : TimerBound n (vstep s e) := by
  obtain ⟨h1, h2⟩ := h
  cases e with
  | start supported =>
    cases supported
    · exact ⟨h1, fun t ht => h2 t ht⟩
    · refine ⟨h1, ?_⟩
      intro t ht
      simp [vstep, startListening] at ht
  | stop => exact stopListening_timerBound n s h1
  | result r results =>
    have hfold := foldl_timerBound n results ⟨"", false, s⟩ ⟨h1, h2⟩
    simp only [vstep, onresult]
    split
    · split
      · exact ⟨hfold.1, fun t ht => hfold.2 t ht⟩
      · exact ⟨hfold.1, fun t ht => hfold.2 t ht⟩
    · exact ⟨h1, h2⟩
  | timer tid =>
    simp only [vstep, fireSilenceTimer]
    split
    · exact stopListening_timerBound n s h1
    · exact ⟨h1, h2⟩
  | ended r =>
    refine ⟨h1, ?_⟩
    intro t ht
    simp [vstep, onend] at ht
  | errored msg => exact ⟨h1, fun t ht => h2 t ht⟩
  | reset => exact ⟨h1, fun t ht => h2 t ht⟩

theorem runEvents_timerBound (n : Nat) (evs : List VEvent) :
    ∀ s : VoiceState, TimerBound n s → TimerBound n (runEvents s evs) := by
  induction evs with
  | nil => intro s h; exact h
  | cons e es ih => intro s h; exact ih _ (vstep_timerBound n s e h)

/-- C9: an explicit stop clears the pending silence timer, tears down the
recognizer and exits the listening flags; and because timer ids are never
reused, a timer scheduled before the stop can never be the pending timer in
any later state, so its firing is a no-op: it cannot touch a later
session's accumulator. -/
theorem voice_stop_clears_timer_and_recognizer (s : VoiceState) (tid : Nat)
    (hpend : s.silenceTimer = some tid) (hfresh : tid < s.nextTimerId) :
    (stopListening s).silenceTimer = none ∧
    (stopListening s).recognitionRef = none ∧
    (stopListening s).isListening = false ∧
    (stopListening s).isWaitingForWakeWord = false ∧
    ∀ evs : List VEvent,
      (runEvents (stopListening s) evs).silenceTimer ≠ some tid ∧
      fireSilenceTimer tid (runEvents (stopListening s) evs)
        = runEvents (stopListening s) evs := by
  have hfields : (stopListening s).silenceTimer = none ∧
      (stopListening s).recognitionRef = none ∧
      (stopListening s).isListening = false ∧
      (stopListening s).isWaitingForWakeWord = false := by
    cases href : s.recognitionRef <;> simp [stopListening, href]
  refine ⟨hfields.1, hfields.2.1, hfields.2.2.1, hfields.2.2.2, ?_⟩
  intro evs
  have hb : TimerBound s.nextTimerId (stopListening s) :=
    stopListening_timerBound s.nextTimerId s (le_refl _)
  have hrun := runEvents_timerBound s.nextTimerId evs _ hb
  have hne : (runEvents (stopListening s) evs).silenceTimer ≠ some tid := by
    intro hcontra
    have := hrun.2 tid hcontra
    omega
  refine ⟨hne, ?_⟩
  unfold fireSilenceTimer
  rw [if_neg hne]

/-- Evaluation of C9 at the concrete capturing state: after the stop, even
a fresh session with its own wake word and utterance never makes the old
timer id pending again, so firing it changes nothing. -/
theorem voice_stop_clears_timer_and_recognizer_witness :
    demoCapturing.silenceTimer = some 1 ∧
    1 < demoCapturing.nextTimerId ∧
    (stopListening demoCapturing).silenceTimer = none ∧
    (stopListening demoCapturing).recognitionRef = none ∧
    (runEvents (stopListening demoCapturing)
        [.start true, .result 1 [⟨"xelo", true⟩], .result 1 [⟨"hi", true⟩]]).silenceTimer
      ≠ some 1 ∧
    fireSilenceTimer 1 (runEvents (stopListening demoCapturing)
        [.start true, .result 1 [⟨"xelo", true⟩], .result 1 [⟨"hi", true⟩]])
      = runEvents (stopListening demoCapturing)
        [.start true, .result 1 [⟨"xelo", true⟩], .result 1 [⟨"hi", true⟩]] := by
  have h := voice_stop_clears_timer_and_recognizer demoCapturing 1
    (by decide) (by decide)
  exact ⟨by decide, by decide, h.1, h.2.1,
    (h.2.2.2.2 [.start true, .result 1 [⟨"xelo", true⟩], .result 1 [⟨"hi", true⟩]]).1,
    (h.2.2.2.2 [.start true, .result 1 [⟨"xelo", true⟩], .result 1 [⟨"hi", true⟩]]).2⟩

/-! ## Theorems: stop handler and playback completion -/

/-- C7: when a listening session ends with an empty trimmed transcript, the
Home component goes straight back to `idle` and no chat request is made;
with a non-empty one it appends the user message, moves to `processing` and
hands the trimmed transcript to the chat mutation. -/
theorem handleStop_empty_vs_nonempty (t : String) (st : HomeState) :
    (jsTrim t = "" →
      handleStopListeningVoice t st
        = ({ st with conversationState := .idle }, none)) ∧
    (jsTrim t ≠ "" →
      (handleStopListeningVoice t st).1.conversationState = .processing ∧
      (handleStopListeningVoice t st).2 = some (jsTrim t) ∧
      (handleStopListeningVoice t st).1.messages
        = st.messages ++ [⟨"user", jsTrim t⟩]) := by
  constructor
  · intro h
    simp [handleStopListeningVoice, h]
  · intro h
    simp [handleStopListeningVoice, h]

/-- Evaluation of C7 at a whitespace-only and a non-empty transcript. -/
theorem handleStop_empty_vs_nonempty_witness :
    jsTrim "   " = "" ∧
    handleStopListeningVoice "   " ⟨[], .listening⟩ = (⟨[], .idle⟩, none) ∧
    jsTrim "  hi  " ≠ "" ∧
    (handleStopListeningVoice "  hi  " ⟨[], .listening⟩).1.conversationState
      = .processing ∧
    (handleStopListeningVoice "  hi  " ⟨[], .listening⟩).2 = some (jsTrim "  hi  ") ∧
    jsTrim "  hi  " = "hi" := by
  have h1 := handleStop_empty_vs_nonempty "   " ⟨[], .listening⟩
  have h2 := handleStop_empty_vs_nonempty "  hi  " ⟨[], .listening⟩
  refine ⟨by decide, ?_, by decide, ?_, ?_, by decide⟩
  · exact h1.1 (by decide)
  · exact (h2.2 (by decide)).1
  · exact (h2.2 (by decide)).2.1

/-- C8: every playback attempt whose callbacks fire at least once settles
the `playAudio` promise exactly once (the first callback wins, success
resolves, every failure path rejects), and the `onSuccess` handler then
performs exactly one `speaking` to `idle` transition and always ends in
`idle` — the session is never stranded in `speaking`. -/
theorem playback_completion_once (hasAudioUrl : Bool) (evts : List PlayEvt)
    (h : evts ≠ []) :
    ∃ st, promiseSettle evts = some st ∧
      countTransitions .speaking .idle .processing (onSuccessTrace hasAudioUrl st) = 1 ∧
      (onSuccessTrace hasAudioUrl st).getLast? = some .idle := by
  obtain ⟨e, es, rfl⟩ := List.exists_cons_of_ne_nil h
  refine ⟨settleOf e, rfl, ?_, ?_⟩
  · cases hasAudioUrl <;> cases e <;> rfl
  · cases hasAudioUrl <;> cases e <;> rfl

/-- Evaluation of C8 at a failing playback attempt with server audio. -/
theorem playback_completion_once_witness :
    ([PlayEvt.audioError] ≠ ([] : List PlayEvt)) ∧
    (∃ st, promiseSettle [PlayEvt.audioError] = some st ∧
      countTransitions .speaking .idle .processing (onSuccessTrace true st) = 1 ∧
      (onSuccessTrace true st).getLast? = some .idle) :=
  ⟨by decide, playback_completion_once true [PlayEvt.audioError] (by decide)⟩
